import Mathlib

/-!
Verification of the ingestion pipeline engine of the kasparro backend
(Python sources under `src/`): the idempotent normalized-data upsert, the
per-source transform adapters, the retry/backoff controller, the schema
drift detector, the checkpointed batch loader and the ETL orchestrator.

Each Python function the claims touch is shallowly embedded as an
executable Lean definition; machine floats of the configuration are
modelled as rationals (all the configured values and the arithmetic the
claims exercise are exact in binary floating point), Python `None` /
missing dict entries as `Option`, raised exceptions as `Except`, and the
database as explicit state (lists of rows) threaded through the
operations.
-/

namespace Kasparro

/-! ## Configuration (`src/core/config.py`, class `Settings`, default values) -/

namespace Settings

def ETL_MAX_RETRIES : Nat := 3

def BACKOFF_BASE_DELAY : ℚ := 1

def BACKOFF_MAX_DELAY : ℚ := 60

def BACKOFF_FACTOR : ℚ := 2

def CHECKPOINT_ENABLED : Bool := true

def CHECKPOINT_INTERVAL : Nat := 50

def SCHEMA_DRIFT_ENABLED : Bool := true

def SCHEMA_DRIFT_THRESHOLD : ℚ := 4/5

end Settings

/-! ## Data model

`NormRecord` embeds the normalized-record dict built by the three
`transform` methods and consumed by
`DatabaseService.save_normalized_data` (src/services/database.py):
fields `source, symbol, name, price_usd, market_cap_usd, volume_24h_usd,
percent_change_24h, rank, last_updated, raw_data`.  Timestamps are
modelled as natural-number ticks and the serialized raw payload
(`json.dumps`) as an opaque string. -/

structure NormRecord where
  source : String
  symbol : String
  name : String
  priceUsd : ℚ
  marketCapUsd : ℚ
  volume24hUsd : ℚ
  percentChange24h : ℚ
  rank : Int
  lastUpdated : Nat
  rawData : String
deriving DecidableEq, Repr

/-- The key of the `UNIQUE(source, symbol, last_updated)` constraint on the
`crypto_data` table (src/services/database.py, `create_tables`). -/
def normKey (r : NormRecord) : String × String × Nat :=
  (r.source, r.symbol, r.lastUpdated)

/-- One row of a per-source raw table (`raw_coinpaprika` / `raw_coingecko` /
`raw_csv`): serial id omitted, `data` is the serialized payload,
`source_id` the optional id column. -/
structure RawRow where
  source : String
  data : String
  sourceId : Option String
deriving DecidableEq, Repr

/-- The database state visible to the claims: the three raw tables
(collapsed into one source-tagged list), the unified `crypto_data` table,
and the `etl_checkpoints` table. -/
structure CheckpointRow where
  source : String
  lastIndex : Nat
  recordsProcessed : Nat
  completed : Bool
deriving DecidableEq, Repr

structure DBState where
  raw : List RawRow
  crypto : List NormRecord
  checkpoints : List CheckpointRow
deriving DecidableEq, Repr

/-! ## `DatabaseService.save_normalized_data` (src/services/database.py 325-341)

`INSERT ... ON CONFLICT (source, symbol, last_updated) DO NOTHING`,
executed per record in order: a record whose key is already present in
the table is a no-op, otherwise the row is appended. -/

/-- Effect of one `INSERT ... ON CONFLICT DO NOTHING` on the
`crypto_data` table. -/
def insertNormalized (table : List NormRecord) (r : NormRecord) : List NormRecord :=
  if table.any (fun t => normKey t = normKey r) then table else table ++ [r]

/-- `DatabaseService.save_normalized_data`: the per-record conflict-free
insert folded over the batch in order. -/
def save_normalized_data (table : List NormRecord) (records : List NormRecord) :
    List NormRecord :=
  records.foldl insertNormalized table

/-- A key is present in the table. -/
def keyMem (k : String × String × Nat) (table : List NormRecord) : Prop :=
  ∃ t ∈ table, normKey t = k

instance (k : String × String × Nat) (table : List NormRecord) :
    Decidable (keyMem k table) := by
  unfold keyMem; infer_instance

/-- Number of rows of the table carrying a given key. -/
def keyCount (k : String × String × Nat) (table : List NormRecord) : Nat :=
  table.countP (fun t => normKey t = k)

/-- The table has at most one row per `(source, symbol, last_updated)` key —
the invariant the `UNIQUE` constraint maintains. -/
def uniqKeys (table : List NormRecord) : Prop :=
  ∀ k, keyCount k table ≤ 1

/-! ## Backoff controller (`BasePipeline.calculate_backoff`,
src/ingestion/base_pipeline.py 100-107)

`delay = min(BACKOFF_BASE_DELAY * BACKOFF_FACTOR ** retry_count,
BACKOFF_MAX_DELAY)`.  With the configured values (1.0, 2.0, 60.0) every
quantity is an exactly representable binary float, so the rational model
coincides with the Python float computation. -/

def calculate_backoff (retryCount : Nat) : ℚ :=
  min (Settings.BACKOFF_BASE_DELAY * Settings.BACKOFF_FACTOR ^ retryCount)
    Settings.BACKOFF_MAX_DELAY

/-! ## Orchestrator (`ETLOrchestrator.run_full_etl`,
src/services/etl_orchestrator.py 27-70)

A pipeline run either returns a result dict (`status "success"`,
`records_processed`) or raises; the orchestrator's registry is the fixed
insertion-ordered dict `{coinpaprika, coingecko, csv}`.  The outcome of
each `pipeline.run()` call is modelled as data. -/

inductive PipeOutcome where
  | success (records : Nat)
  | failure (err : String)
deriving DecidableEq, Repr

/-- The per-source entry the orchestrator stores in `results`: on success
the dict returned by `run()` (duration omitted), on failure the
`{"status": "failed", "error": ..., "records_processed": 0}` dict. -/
structure SourceResult where
  status : String
  recordsProcessed : Nat
  error : Option String
deriving DecidableEq, Repr

structure EtlSummary where
  status : String
  totalRecords : Nat
  sources : List (String × SourceResult)
  failedSources : List String
deriving DecidableEq, Repr

/-- Records contributed to `total_records` by one pipeline: the except
branch never reaches the `total_records +=` line. -/
def outcomeRecords : PipeOutcome → Nat
  | .success n => n
  | .failure _ => 0

def isFailureOutcome : PipeOutcome → Bool
  | .success _ => false
  | .failure _ => true

/-- `ETLOrchestrator.run_full_etl`: iterates the registry in order,
isolating per-source failures, then derives the overall status. -/
def run_full_etl (pipes : List (String × PipeOutcome)) : EtlSummary :=
  let step := fun (acc : List (String × SourceResult) × Nat × List String)
      (p : String × PipeOutcome) =>
    match p.2 with
    | .success n => (acc.1 ++ [(p.1, ⟨"success", n, none⟩)], acc.2.1 + n, acc.2.2)
    | .failure e =>
        (acc.1 ++ [(p.1, ⟨"failed", 0, some e⟩)], acc.2.1, acc.2.2 ++ [p.1])
  let res := pipes.foldl step ([], 0, [])
  let overall := if res.2.2.isEmpty then "success" else "partial_failure"
  let overall := if res.2.2.length = pipes.length then "failed" else overall
  { status := overall, totalRecords := res.2.1, sources := res.1,
    failedSources := res.2.2 }

/-- The registered pipelines of `ETLOrchestrator.__init__`, with an outcome
assigned to each. -/
def kasparroRegistry (o1 o2 o3 : PipeOutcome) : List (String × PipeOutcome) :=
  [("coinpaprika", o1), ("coingecko", o2), ("csv", o3)]

/-! ## Per-source transform adapters

Raw items are embedded as typed structures: a missing dict key or a JSON
`null` is `none`.  `CoinGeckoPipeline.transform`
(src/ingestion/coingecko_pipeline.py 96-151) defaults every missing
field (`item.get(... ) or 0`, `item.get(..., '')`) so the Pydantic
validation of the defaulted values always succeeds; it upper-cases the
symbol.  `CoinPaprikaPipeline.transform`
(src/ingestion/coinpaprika_pipeline.py 93-134) drops an item whose
required fields are missing (Pydantic `ValidationError`) and emits
`validated.symbol` unchanged.  `CSVPipeline.transform`
(src/ingestion/csv_pipeline.py 99-137) receives string cell values,
coerces the numeric ones through Pydantic (the string-to-number parsers
of the validation library are abstract parameters), drops items that
fail, and upper-cases the symbol.  `json.dumps` of the raw item is an
abstract `enc` parameter; the per-item `datetime.now()` stamp is the
`now` parameter. -/

/-- Python `str.upper()`: upper-case every character.  On the ASCII
symbols the sources carry this agrees with the CPython behaviour. -/
def pyUpper (s : String) : String :=
  ⟨s.data.map Char.toUpper⟩

structure GeckoItem where
  id : Option String
  symbol : Option String
  name : Option String
  currentPrice : Option ℚ
  marketCap : Option ℚ
  totalVolume : Option ℚ
  priceChangePercentage24h : Option ℚ
  marketCapRank : Option Int
deriving DecidableEq, Repr

def coingeckoTransformItem (enc : GeckoItem → String) (now : Nat)
    (it : GeckoItem) : NormRecord :=
  { source := "coingecko"
    symbol := pyUpper (it.symbol.getD "")
    name := it.name.getD ""
    priceUsd := it.currentPrice.getD 0
    marketCapUsd := it.marketCap.getD 0
    volume24hUsd := it.totalVolume.getD 0
    percentChange24h := it.priceChangePercentage24h.getD 0
    rank := it.marketCapRank.getD 0
    lastUpdated := now
    rawData := enc it }

def coingeckoTransform (enc : GeckoItem → String) (now : Nat)
    (raw : List GeckoItem) : List NormRecord :=
  raw.map (coingeckoTransformItem enc now)

structure PaprikaQuote where
  price : Option ℚ
  marketCap : Option ℚ
  volume24h : Option ℚ
  percentChange24h : Option ℚ
deriving DecidableEq, Repr

structure PaprikaItem where
  id : Option String
  name : Option String
  symbol : Option String
  rank : Option Int
  quotes : Option (List (String × PaprikaQuote))
deriving DecidableEq, Repr

/-- One item of `CoinPaprikaPipeline.transform`: `CoinPaprikaData(**item)`
requires `id`, `name`, `symbol`, `rank` and `quotes`; the USD quote is
looked up with `{}` as default and each quote field defaults to 0.  The
symbol is emitted as-is. -/
def coinpaprikaTransformItem (enc : PaprikaItem → String) (now : Nat)
    (it : PaprikaItem) : Option NormRecord :=
  match it.id, it.name, it.symbol, it.rank, it.quotes with
  | some _, some nm, some sym, some rk, some qs =>
    let usd := (qs.lookup "USD").getD ⟨none, none, none, none⟩
    some { source := "coinpaprika"
           symbol := sym
           name := nm
           priceUsd := usd.price.getD 0
           marketCapUsd := usd.marketCap.getD 0
           volume24hUsd := usd.volume24h.getD 0
           percentChange24h := usd.percentChange24h.getD 0
           rank := rk
           lastUpdated := now
           rawData := enc it }
  | _, _, _, _, _ => none

def coinpaprikaTransform (enc : PaprikaItem → String) (now : Nat)
    (raw : List PaprikaItem) : List NormRecord :=
  raw.filterMap (coinpaprikaTransformItem enc now)

structure CsvItem where
  symbol : Option String
  name : Option String
  price : Option String
  marketCap : Option String
  volume24h : Option String
  percentChange24h : Option String
  rank : Option String
deriving DecidableEq, Repr

/-- One item of `CSVPipeline.transform`: `CSVCryptoData(**item)` requires
all seven columns, coercing the numeric strings via the validation
library's parsers (`parseFloat`, `parseInt`); a missing column or a
failed coercion drops the record.  The symbol is upper-cased. -/
def csvTransformItem (parseFloat : String → Option ℚ)
    (parseInt : String → Option Int) (enc : CsvItem → String) (now : Nat)
    (it : CsvItem) : Option NormRecord :=
  it.symbol.bind fun sym =>
  it.name.bind fun nm =>
  (it.price.bind parseFloat).bind fun p =>
  (it.marketCap.bind parseFloat).bind fun mc =>
  (it.volume24h.bind parseFloat).bind fun v =>
  (it.percentChange24h.bind parseFloat).bind fun pc =>
  (it.rank.bind parseInt).bind fun rk =>
  some { source := "csv"
         symbol := pyUpper sym
         name := nm
         priceUsd := p
         marketCapUsd := mc
         volume24hUsd := v
         percentChange24h := pc
         rank := rk
         lastUpdated := now
         rawData := enc it }

def csvTransform (parseFloat : String → Option ℚ)
    (parseInt : String → Option Int) (enc : CsvItem → String) (now : Nat)
    (raw : List CsvItem) : List NormRecord :=
  raw.filterMap (csvTransformItem parseFloat parseInt enc now)

/-! ## `BasePipeline.run` (src/ingestion/base_pipeline.py 43-98)

The three stage outcomes are modelled as data (`Except` for a raised
exception); the wall-clock readings at entry and at the `except` /
success handler are the `startT` / `endT` parameters.  The second
component of the result collects every `db.log_run` call made. -/

structure RunResultView where
  status : String
  recordsProcessed : Nat
deriving DecidableEq, Repr

/-- One row written by `DatabaseService.log_run`. -/
structure LogEntry where
  source : String
  status : String
  records : Nat
  startTime : Nat
  endTime : Option Nat
  error : Option String
deriving DecidableEq, Repr

def basePipelineRun {ρ ν : Type} (src : String) (startT endT : Nat)
    (extractR : Except String (List ρ))
    (transformF : List ρ → Except String (List ν))
    (loadF : List ν → Except String Unit) :
    Except String RunResultView × List LogEntry :=
  match extractR with
  | .error e => (.error e, [⟨src, "failed", 0, startT, some endT, some e⟩])
  | .ok raw =>
    if raw.isEmpty then (.ok ⟨"success", 0⟩, [])
    else
      match transformF raw with
      | .error e => (.error e, [⟨src, "failed", 0, startT, some endT, some e⟩])
      | .ok normalized =>
        match loadF normalized with
        | .error e => (.error e, [⟨src, "failed", 0, startT, some endT, some e⟩])
        | .ok _ =>
          (.ok ⟨"success", normalized.length⟩,
            [⟨src, "success", normalized.length, startT, some endT, none⟩])

/-! ## Extract retry loop (`CoinGeckoPipeline.extract` 42-94,
`CoinPaprikaPipeline.extract` 39-91)

`while retry_count < settings.ETL_MAX_RETRIES`: a 429 response applies a
backoff wait and increments the counter; any other HTTP client error
increments the counter, waits only if a retry remains and otherwise
re-raises; a successful response returns its body; falling out of the
loop raises `Exception("Failed to extract data after ... retries")`.
The response of each attempt is the oracle `resp`; the success value
carries the final retry counter together with the number of backoff
waits performed. -/

inductive HttpResp (α : Type) where
  | rateLimited
  | clientError (msg : String)
  | ok (data : α)
deriving DecidableEq, Repr

structure ExtractSuccess (α : Type) where
  data : α
  retryCount : Nat
  backoffWaits : Nat
deriving DecidableEq, Repr

def extractLoop {α : Type} (resp : Nat → HttpResp α) (maxRetries : Nat)
    (r : Nat) (waits : Nat) : Except String (ExtractSuccess α) :=
  if _h : r < maxRetries then
    match resp r with
    | .ok d => .ok ⟨d, r, waits⟩
    | .rateLimited => extractLoop resp maxRetries (r + 1) (waits + 1)
    | .clientError e =>
      if r + 1 < maxRetries then extractLoop resp maxRetries (r + 1) (waits + 1)
      else .error e
  else .error "Failed to extract data after retries"
termination_by maxRetries - r
decreasing_by all_goals omega

def isOkE {β : Type} : Except String β → Bool
  | .ok _ => true
  | .error _ => false

/-! ## Schema drift detector (`BasePipeline.detect_schema_drift`,
src/ingestion/base_pipeline.py 109-172)

An observed record and a declared schema are key/value association
lists (Python dict iteration order); runtime values and declared types
are a small Python-type universe.  The `difflib.SequenceMatcher.ratio`
string-similarity metric of the standard library is the abstract
parameter `ratio`, the configured threshold the parameter `threshold`.
Warnings are modelled structurally: `rename m b` stands for the
``Possible field rename: m -> b`` message (its formatted score suffix
omitted) and `typeMismatch k` for the type-mismatch message of key
`k`. -/

inductive PyType where
  | strT
  | intT
  | floatT
  | boolT
  | dictT
  | listT
  | noneT
deriving DecidableEq, Repr

inductive PyVal where
  | vStr (s : String)
  | vInt (n : Int)
  | vFloat (q : ℚ)
  | vBool (b : Bool)
  | vDict
  | vList
  | vNone
deriving DecidableEq, Repr

def pyTypeOf : PyVal → PyType
  | .vStr _ => .strT
  | .vInt _ => .intT
  | .vFloat _ => .floatT
  | .vBool _ => .boolT
  | .vDict => .dictT
  | .vList => .listT
  | .vNone => .noneT

inductive DriftWarning where
  | rename (missing best : String)
  | typeMismatch (key : String)
deriving DecidableEq, Repr

/-- One iteration of the inner loop over `extra_keys`: take a key only on
a strict score improvement. -/
def bmStep (ratio : String → String → ℚ) (m : String)
    (acc : Option String × ℚ) (a : String) : Option String × ℚ :=
  if ratio m a > acc.2 then (some a, ratio m a) else acc

/-- The inner loop over `extra_keys`, starting from
`best_match=None, best_score=0`. -/
def bestMatchFold (ratio : String → String → ℚ) (m : String)
    (extras : List String) : Option String × ℚ :=
  extras.foldl (bmStep ratio m) (none, 0)

structure DriftReport where
  missingKeys : List String
  extraKeys : List String
  fuzzyKeys : List String
  warnings : List DriftWarning
  confidence : ℚ
deriving DecidableEq, Repr

/-- `missing_keys = expected_keys - actual_keys` (in expected-key
iteration order). -/
def driftMissing (expectedKeys actualKeys : List String) : List String :=
  expectedKeys.filter (fun k => !(actualKeys.contains k))

/-- `extra_keys = actual_keys - expected_keys`. -/
def driftExtra (expectedKeys actualKeys : List String) : List String :=
  actualKeys.filter (fun k => !(expectedKeys.contains k))

/-- The keys entered into `fuzzy_matches`: missing keys whose best score
over the extra keys reaches the threshold. -/
def driftFuzzy (ratio : String → String → ℚ) (threshold : ℚ)
    (expectedKeys actualKeys : List String) : List String :=
  (driftMissing expectedKeys actualKeys).filter
    (fun m => decide (threshold ≤
      (bestMatchFold ratio m (driftExtra expectedKeys actualKeys)).2))

/-- The ``Possible field rename`` warnings, one per fuzzy-matched key
(`str(None)` prints as ``None`` when no extra key ever improved on the
initial score). -/
def driftRenameWarnings (ratio : String → String → ℚ) (threshold : ℚ)
    (expectedKeys actualKeys : List String) : List DriftWarning :=
  (driftFuzzy ratio threshold expectedKeys actualKeys).map
    (fun m => DriftWarning.rename m
      (((bestMatchFold ratio m (driftExtra expectedKeys actualKeys)).1).getD "None"))

/-- The type-mismatch warnings over the shared keys: a non-`None` value
whose runtime type is outside the declared type set. -/
def driftTypeWarnings (expectedSchema : List (String × List PyType))
    (sample : List (String × PyVal)) : List DriftWarning :=
  ((expectedSchema.map Prod.fst).filter
      (fun k => (sample.map Prod.fst).contains k)).filterMap
    (fun k =>
      match sample.lookup k, expectedSchema.lookup k with
      | some v, some tys =>
        if v ≠ .vNone ∧ ¬ (pyTypeOf v ∈ tys) then some (DriftWarning.typeMismatch k)
        else none
      | _, _ => none)

/-- `BasePipeline.detect_schema_drift`: key-set differences, fuzzy rename
hints for missing keys whose best extra-key similarity reaches the
threshold, type-mismatch warnings for shared keys with a non-`None`
value outside the declared type set, and the confidence score
`(exact + fuzzy) / total_expected` (1.0 for an empty expected
schema). -/
def detect_schema_drift (ratio : String → String → ℚ) (threshold : ℚ)
    (expectedSchema : List (String × List PyType))
    (sample : List (String × PyVal)) : DriftReport :=
  let expectedKeys := expectedSchema.map Prod.fst
  let actualKeys := sample.map Prod.fst
  let matched := (expectedKeys.filter (fun k => actualKeys.contains k)).length +
    (driftFuzzy ratio threshold expectedKeys actualKeys).length
  { missingKeys := driftMissing expectedKeys actualKeys
    extraKeys := driftExtra expectedKeys actualKeys
    fuzzyKeys := driftFuzzy ratio threshold expectedKeys actualKeys
    warnings := driftRenameWarnings ratio threshold expectedKeys actualKeys ++
      driftTypeWarnings expectedSchema sample
    confidence :=
      if 0 < expectedKeys.length then (matched : ℚ) / expectedKeys.length else 1 }

/-! ## Checkpointed batch load (`CoinGeckoPipeline.load` 153-193,
`CoinPaprikaPipeline.load` 136-176; `CSVPipeline.load` 139-153)

The two API pipelines' `load` bodies are line-identical: save the raw
payloads, then `for i in range(0, len(data), batch_size)` write each
batch through `save_normalized_data`, append a checkpoint
(`records_processed = total_loaded`, marker `last_index = i + batch_size`)
when checkpointing is enabled, re-raise on a batch-write failure, and
mark the checkpoint completed after the loop.  The csv pipeline's `load`
instead performs one unbatched `save_normalized_data` call with no
checkpoint interaction.  The database calls are recorded as an event
trace; transient write failures are the oracle `failAt`, indexed by the
batch's start offset. -/

inductive LoadEvent where
  | rawSave (count : Nat)
  | batchWrite (count : Nat)
  | checkpointSave (recordsProcessed : Nat) (lastIndex : Nat)
  | markCompleted
deriving DecidableEq, Repr

/-- The batch loop of the API pipelines' `load`: `offset` is the Python
loop variable `i`, `tot` the running `total_loaded`. -/
def loadBatches (ckpt : Bool) (bs : Nat) (failAt : Nat → Bool) :
    Nat → Nat → List NormRecord → List LoadEvent × Except String Unit
  | _, _, [] => ([], .ok ())
  | offset, tot, r :: rs =>
    if failAt offset then ([], .error "batch write failed")
    else
      let batch := r :: rs.take (bs - 1)
      let rest := rs.drop (bs - 1)
      let tot2 := tot + batch.length
      let evs := LoadEvent.batchWrite batch.length ::
        (if ckpt then [LoadEvent.checkpointSave tot2 (offset + bs)] else [])
      let next := loadBatches ckpt bs failAt (offset + bs) tot2 rest
      (evs ++ next.1, next.2)
termination_by _ _ rem => rem.length
decreasing_by simp [List.length_drop]; omega

def isOkU : Except String Unit → Bool
  | .ok _ => true
  | .error _ => false

/-- `CoinGeckoPipeline.load` / `CoinPaprikaPipeline.load` as an event
trace: raw save first, the batch loop, and the completion mark when the
loop finished without an exception and checkpointing is enabled. -/
def apiLoadTrace (ckpt : Bool) (bs : Nat) (failAt : Nat → Bool)
    (data : List NormRecord) : List LoadEvent × Except String Unit :=
  let batchPart := loadBatches ckpt bs failAt 0 0 data
  (LoadEvent.rawSave data.length ::
      (batchPart.1 ++
        (if ckpt && isOkU batchPart.2 then [LoadEvent.markCompleted] else [])),
    batchPart.2)

/-- `CSVPipeline.load` as an event trace: raw save, then a single
unbatched normalized write; no checkpoint calls at all. -/
def csvLoadTrace (failSave : Bool) (data : List NormRecord) :
    List LoadEvent × Except String Unit :=
  if failSave then ([LoadEvent.rawSave data.length], .error "save failed")
  else ([LoadEvent.rawSave data.length, LoadEvent.batchWrite data.length], .ok ())

/-- A well-checkpointed trace segment starting from cumulative count
`tot`: batch writes in blocks, each immediately followed by its
checkpoint carrying the new cumulative records-processed count. -/
inductive ChkTrace : Nat → List LoadEvent → Prop where
  | nil (tot : Nat) : ChkTrace tot []
  | block (tot n m : Nat) (evs : List LoadEvent) :
      ChkTrace (tot + n) evs →
      ChkTrace tot (LoadEvent.batchWrite n :: LoadEvent.checkpointSave (tot + n) m :: evs)

def isBatchWrite : LoadEvent → Bool
  | .batchWrite _ => true
  | _ => false

def isCheckpointSave : LoadEvent → Bool
  | .checkpointSave _ _ => true
  | _ => false

def writeCount (evs : List LoadEvent) : Nat := evs.countP isBatchWrite

def ckptCount (evs : List LoadEvent) : Nat := evs.countP isCheckpointSave

/-- Total records covered by the batch writes of a trace. -/
def writtenSum : List LoadEvent → Nat
  | [] => 0
  | .batchWrite n :: evs => n + writtenSum evs
  | _ :: evs => writtenSum evs

/-! ## Raw persistence and the state-level load (claim C10)

`DatabaseService.save_raw_data` (src/services/database.py 305-323)
resolves the per-source raw table and unconditionally inserts one row
per item — there is no duplicate-key check.  The load of the API
pipelines is re-modelled at the database-state level (failure-free
path) to relate the raw, normalized and checkpoint tables across
repeated calls. -/

/-- `DatabaseService.save_raw_data`: `ValueError` on an unknown source,
otherwise one plain `INSERT` per item with
`source_id = source_ids[idx] if source_ids and idx < len(source_ids) else None`. -/
def save_raw_data (db : DBState) (source : String) (data : List String)
    (sourceIds : Option (List String)) : Except String DBState :=
  if source = "coinpaprika" ∨ source = "coingecko" ∨ source = "csv" then
    .ok { db with
      raw := db.raw ++ data.enum.map
        (fun p => ⟨source, p.2, sourceIds.bind (fun l => l.get? p.1)⟩) }
  else .error ("Unknown source: " ++ source)

/-- `DatabaseService.save_checkpoint`: plain insert, `completed` defaults
to false. -/
def save_checkpoint (db : DBState) (source : String) (lastIndex : Nat)
    (recordsProcessed : Nat) : DBState :=
  { db with checkpoints :=
      db.checkpoints ++ [⟨source, lastIndex, recordsProcessed, false⟩] }

/-- `DatabaseService.mark_checkpoint_completed`: set `completed` on every
not-yet-completed checkpoint row of the source. -/
def completeRow (source : String) (c : CheckpointRow) : CheckpointRow :=
  if c.source = source ∧ c.completed = false then { c with completed := true }
  else c

def mark_checkpoint_completed (db : DBState) (source : String) : DBState :=
  { db with checkpoints := db.checkpoints.map (completeRow source) }

/-- `save_normalized_data` lifted to the database state. -/
def saveNormalizedState (db : DBState) (records : List NormRecord) : DBState :=
  { db with crypto := save_normalized_data db.crypto records }

/-- The batch loop of the API pipelines' `load` at the state level
(failure-free path): write each batch, checkpoint after it when
enabled. -/
def loadBatchesState (ckpt : Bool) (bs : Nat) (source : String) :
    DBState → Nat → Nat → List NormRecord → DBState
  | db, _, _, [] => db
  | db, offset, tot, r :: rs =>
    let batch := r :: rs.take (bs - 1)
    let rest := rs.drop (bs - 1)
    let db1 := saveNormalizedState db batch
    let tot2 := tot + batch.length
    let db2 := if ckpt then save_checkpoint db1 source (offset + bs) tot2 else db1
    loadBatchesState ckpt bs source db2 (offset + bs) tot2 rest
termination_by _ _ _ rem => rem.length
decreasing_by simp [List.length_drop]; omega

/-- `CoinGeckoPipeline.load` at the state level: raw payloads first
(keyed by symbol), then the checkpointed batch loop, then the completion
mark. -/
def coingeckoLoadState (ckpt : Bool) (bs : Nat) (db : DBState)
    (data : List NormRecord) : Except String DBState :=
  (save_raw_data db "coingecko" (data.map (fun r => r.rawData))
      (some (data.map (fun r => r.symbol)))).map
    (fun db1 =>
      let db2 := loadBatchesState ckpt bs "coingecko" db1 0 0 data
      if ckpt then mark_checkpoint_completed db2 "coingecko" else db2)


/-! ## Theorems -/

lemma keyMem_iff_keyCount_pos (k : String × String × Nat) (table : List NormRecord) :
    keyMem k table ↔ 0 < keyCount k table := by
  unfold keyMem keyCount
  rw [List.countP_pos_iff]
  simp

lemma any_key_eq (table : List NormRecord) (r : NormRecord) :
    (table.any (fun t => normKey t = normKey r)) = true ↔ keyMem (normKey r) table := by
  unfold keyMem
  rw [List.any_eq_true]
  simp

lemma insertNormalized_of_mem {table : List NormRecord} {r : NormRecord}
    (h : keyMem (normKey r) table) : insertNormalized table r = table := by
  unfold insertNormalized
  rw [if_pos ((any_key_eq table r).mpr h)]

lemma insertNormalized_of_not_mem {table : List NormRecord} {r : NormRecord}
    (h : ¬ keyMem (normKey r) table) : insertNormalized table r = table ++ [r] := by
  unfold insertNormalized
  rw [if_neg]
  intro hc
  exact h ((any_key_eq table r).mp hc)

lemma keyMem_insertNormalized_self (table : List NormRecord) (r : NormRecord) :
    keyMem (normKey r) (insertNormalized table r) := by
  by_cases h : keyMem (normKey r) table
  · rw [insertNormalized_of_mem h]; exact h
  · rw [insertNormalized_of_not_mem h]
    exact ⟨r, by simp, rfl⟩

lemma keyMem_insertNormalized_mono {k : String × String × Nat}
    {table : List NormRecord} (r : NormRecord) (h : keyMem k table) :
    keyMem k (insertNormalized table r) := by
  unfold insertNormalized
  split
  · exact h
  · obtain ⟨t, ht, hk⟩ := h
    exact ⟨t, by simp [ht], hk⟩

lemma keyMem_save_mono {k : String × String × Nat} {table : List NormRecord}
    (records : List NormRecord) (h : keyMem k table) :
    keyMem k (save_normalized_data table records) := by
  induction records generalizing table with
  | nil => exact h
  | cons r rs ih => exact ih (keyMem_insertNormalized_mono r h)

lemma keyMem_save_of_mem {table : List NormRecord} {records : List NormRecord}
    {r : NormRecord} (h : r ∈ records) :
    keyMem (normKey r) (save_normalized_data table records) := by
  induction records generalizing table with
  | nil => cases h
  | cons x xs ih =>
    rcases List.mem_cons.mp h with heq | hmem
    · subst heq
      exact keyMem_save_mono xs (keyMem_insertNormalized_self table r)
    · exact ih hmem

lemma save_eq_self_of_all_mem {table : List NormRecord} {records : List NormRecord}
    (h : ∀ r ∈ records, keyMem (normKey r) table) :
    save_normalized_data table records = table := by
  induction records with
  | nil => rfl
  | cons x xs ih =>
    have hx : insertNormalized table x = table := insertNormalized_of_mem (h x (by simp))
    have hxs : save_normalized_data table xs = table :=
      ih (fun r hr => h r (by simp [hr]))
    show save_normalized_data (insertNormalized table x) xs = table
    rw [hx, hxs]

/-- Writing the same batch a second time changes nothing. -/
lemma save_normalized_data_idem (table : List NormRecord) (records : List NormRecord) :
    save_normalized_data (save_normalized_data table records) records =
      save_normalized_data table records :=
  save_eq_self_of_all_mem (fun _ hr => keyMem_save_of_mem hr)

lemma keyCount_insertNormalized (table : List NormRecord) (r : NormRecord)
    (k : String × String × Nat) :
    keyCount k (insertNormalized table r) =
      keyCount k table + (if ¬ keyMem (normKey r) table ∧ normKey r = k then 1 else 0) := by
  by_cases h : keyMem (normKey r) table
  · rw [insertNormalized_of_mem h]; simp [h]
  · rw [insertNormalized_of_not_mem h]
    unfold keyCount
    rw [List.countP_append]
    by_cases hk : normKey r = k
    · subst hk
      simp [h, List.countP_cons]
    · simp [hk, List.countP_cons]

lemma uniqKeys_insertNormalized {table : List NormRecord} (h : uniqKeys table)
    (r : NormRecord) : uniqKeys (insertNormalized table r) := by
  intro k
  rw [keyCount_insertNormalized]
  by_cases hmem : keyMem (normKey r) table
  · simp only [hmem, not_true, false_and, if_false]
    exact h k
  · by_cases hk : normKey r = k
    · subst hk
      have : keyCount (normKey r) table = 0 := by
        by_contra hpos
        exact hmem ((keyMem_iff_keyCount_pos (normKey r) table).mpr
          (Nat.pos_of_ne_zero hpos))
      simp [hmem, this]
    · simp only [hk, and_false, if_false]
      exact h k

lemma uniqKeys_save {table : List NormRecord} (h : uniqKeys table)
    (records : List NormRecord) : uniqKeys (save_normalized_data table records) := by
  induction records generalizing table with
  | nil => exact h
  | cons x xs ih => exact ih (uniqKeys_insertNormalized h x)

/-! ### Claim C1 -/

/-- C1: persisting a normalized batch through
`DatabaseService.save_normalized_data` is an idempotent upsert on the
`(source, symbol, last_updated)` key: starting from any table satisfying
the unique-key invariant, re-running the same batch is a no-op, the
invariant is preserved, and each record of the batch ends up stored in
exactly one row carrying its key. -/
theorem save_normalized_idempotent_unique
    (table : List NormRecord) (records : List NormRecord)
    (h : uniqKeys table) :
    save_normalized_data (save_normalized_data table records) records =
        save_normalized_data table records ∧
      uniqKeys (save_normalized_data table records) ∧
      ∀ r ∈ records, keyCount (normKey r) (save_normalized_data table records) = 1 := by
  refine ⟨save_normalized_data_idem table records, uniqKeys_save h records, ?_⟩
  intro r hr
  have h1 : 0 < keyCount (normKey r) (save_normalized_data table records) :=
    (keyMem_iff_keyCount_pos _ _).mp (keyMem_save_of_mem hr)
  have h2 := uniqKeys_save h records (normKey r)
  omega

/-- Concrete instance of C1: a one-record batch written twice into the empty
table stores the record exactly once. -/
theorem save_normalized_idempotent_unique_witness :
    uniqKeys ([] : List NormRecord) ∧
      (save_normalized_data
          (save_normalized_data []
            [⟨"coingecko", "BTC", "Bitcoin", 45000, 0, 0, 0, 1, 7, "p"⟩])
          [⟨"coingecko", "BTC", "Bitcoin", 45000, 0, 0, 0, 1, 7, "p"⟩] =
        save_normalized_data []
          [⟨"coingecko", "BTC", "Bitcoin", 45000, 0, 0, 0, 1, 7, "p"⟩]) ∧
      keyCount ("coingecko", "BTC", 7)
        (save_normalized_data []
          [⟨"coingecko", "BTC", "Bitcoin", 45000, 0, 0, 0, 1, 7, "p"⟩]) = 1 := by
  have hu : uniqKeys ([] : List NormRecord) := by intro k; simp [keyCount]
  have h := save_normalized_idempotent_unique []
    [⟨"coingecko", "BTC", "Bitcoin", 45000, 0, 0, 0, 1, 7, "p"⟩] hu
  exact ⟨hu, h.1,
    h.2.2 ⟨"coingecko", "BTC", "Bitcoin", 45000, 0, 0, 0, 1, 7, "p"⟩ (by simp)⟩

/-! ### Claim C6 -/

/-- C6: the backoff delay equals `min(base_delay * factor^r, max_delay)` at
the configured values, is monotonically non-decreasing in the retry count,
and is capped at `max_delay`. -/
theorem calculate_backoff_formula_monotone_capped :
    (∀ r : Nat, calculate_backoff r =
        min (Settings.BACKOFF_BASE_DELAY * Settings.BACKOFF_FACTOR ^ r)
          Settings.BACKOFF_MAX_DELAY) ∧
      ∀ r1 r2 : Nat, r1 < r2 →
        calculate_backoff r1 ≤ calculate_backoff r2 ∧
          calculate_backoff r2 ≤ Settings.BACKOFF_MAX_DELAY := by
  refine ⟨fun r => rfl, fun r1 r2 h => ⟨?_, min_le_right _ _⟩⟩
  unfold calculate_backoff Settings.BACKOFF_BASE_DELAY Settings.BACKOFF_FACTOR
  apply min_le_min_right
  rw [one_mul, one_mul]
  exact pow_le_pow_right₀ one_le_two h.le

/-- Concrete instance of C6 at retry counts 1 < 3. -/
theorem calculate_backoff_formula_monotone_capped_witness :
    calculate_backoff 1 ≤ calculate_backoff 3 ∧
      calculate_backoff 3 ≤ Settings.BACKOFF_MAX_DELAY :=
  calculate_backoff_formula_monotone_capped.2 1 3 (by decide)

/-! ### Claim C3 -/

/-- C3: for every assignment of outcomes to the three registered pipelines,
`run_full_etl` records each failing pipeline per-source with status
`failed` and zero records while every pipeline still gets an entry, sums
records over the successful pipelines, and returns `success` when none
failed, `failed` when all failed, and `partial_failure` otherwise. -/
theorem run_full_etl_aggregation (o1 o2 o3 : PipeOutcome) :
    (∀ e, o1 = .failure e →
        ("coinpaprika", (⟨"failed", 0, some e⟩ : SourceResult)) ∈
            (run_full_etl (kasparroRegistry o1 o2 o3)).sources ∧
          "coinpaprika" ∈ (run_full_etl (kasparroRegistry o1 o2 o3)).failedSources) ∧
      (∀ e, o2 = .failure e →
        ("coingecko", (⟨"failed", 0, some e⟩ : SourceResult)) ∈
            (run_full_etl (kasparroRegistry o1 o2 o3)).sources ∧
          "coingecko" ∈ (run_full_etl (kasparroRegistry o1 o2 o3)).failedSources) ∧
      (∀ e, o3 = .failure e →
        ("csv", (⟨"failed", 0, some e⟩ : SourceResult)) ∈
            (run_full_etl (kasparroRegistry o1 o2 o3)).sources ∧
          "csv" ∈ (run_full_etl (kasparroRegistry o1 o2 o3)).failedSources) ∧
      (run_full_etl (kasparroRegistry o1 o2 o3)).sources.map Prod.fst =
        ["coinpaprika", "coingecko", "csv"] ∧
      (run_full_etl (kasparroRegistry o1 o2 o3)).totalRecords =
        outcomeRecords o1 + outcomeRecords o2 + outcomeRecords o3 ∧
      (run_full_etl (kasparroRegistry o1 o2 o3)).status =
        (if ([o1, o2, o3].countP isFailureOutcome) = 0 then "success"
          else if ([o1, o2, o3].countP isFailureOutcome) = 3 then "failed"
          else "partial_failure") := by
  rcases o1 with n1 | e1 <;> rcases o2 with n2 | e2 <;> rcases o3 with n3 | e3 <;>
    simp [run_full_etl, kasparroRegistry, outcomeRecords, isFailureOutcome,
      List.countP_cons]

/-- Concrete instance of C3: one failing pipeline out of three yields
`partial_failure` with the failure recorded per-source. -/
theorem run_full_etl_aggregation_witness :
    ("coingecko", (⟨"failed", 0, some "boom"⟩ : SourceResult)) ∈
        (run_full_etl
          (kasparroRegistry (.success 5) (.failure "boom") (.success 2))).sources ∧
      (run_full_etl
          (kasparroRegistry (.success 5) (.failure "boom") (.success 2))).status =
        "partial_failure" := by
  have h := run_full_etl_aggregation (.success 5) (.failure "boom") (.success 2)
  exact ⟨(h.2.1 "boom" rfl).1, by rw [h.2.2.2.2.2]; decide⟩

/-! ### Claim C2 -/

/-- C2 fails as stated: the coinpaprika transform does not upper-case.
A raw coinpaprika item carrying the lower-case symbol `btc` is emitted
with symbol `btc`, which differs from its upper-casing. -/
theorem coinpaprika_symbol_not_uppercased :
    (coinpaprikaTransform (fun _ => "") 0
        [⟨some "btc-bitcoin", some "Bitcoin", some "btc", some 1, some []⟩]).map
        NormRecord.symbol = ["btc"] ∧
      pyUpper "btc" ≠ "btc" := by
  constructor
  · rfl
  · decide

/-- C2 amended: the coingecko and csv transforms emit every record with the
upper-casing of the source item's symbol; the coinpaprika transform emits
the source item's symbol unchanged. -/
theorem transform_symbol_casing :
    (∀ (enc : GeckoItem → String) (now : Nat) (raw : List GeckoItem)
        (r : NormRecord), r ∈ coingeckoTransform enc now raw →
        ∃ it ∈ raw, r.symbol = pyUpper (it.symbol.getD "")) ∧
      (∀ (parseFloat : String → Option ℚ) (parseInt : String → Option Int)
        (enc : CsvItem → String) (now : Nat) (raw : List CsvItem)
        (r : NormRecord), r ∈ csvTransform parseFloat parseInt enc now raw →
        ∃ it ∈ raw, ∃ s, it.symbol = some s ∧ r.symbol = pyUpper s) ∧
      (∀ (enc : PaprikaItem → String) (now : Nat) (raw : List PaprikaItem)
        (r : NormRecord), r ∈ coinpaprikaTransform enc now raw →
        ∃ it ∈ raw, it.symbol = some r.symbol) := by
  refine ⟨?_, ?_, ?_⟩
  · intro enc now raw r h
    obtain ⟨it, hmem, heq⟩ := List.mem_map.mp h
    exact ⟨it, hmem, by rw [← heq]; rfl⟩
  · intro parseFloat parseInt enc now raw r h
    obtain ⟨it, hmem, heq⟩ := List.mem_filterMap.mp h
    refine ⟨it, hmem, ?_⟩
    simp only [csvTransformItem, Option.bind_eq_some,
      Option.some.injEq] at heq
    obtain ⟨sym, hsym, nm, hnm, p, hp, mc, hmc, v, hv, pc, hpc, rk, hrk, hr⟩ := heq
    exact ⟨sym, hsym, by rw [← hr]⟩
  · intro enc now raw r h
    obtain ⟨it, hmem, heq⟩ := List.mem_filterMap.mp h
    refine ⟨it, hmem, ?_⟩
    obtain ⟨id, nm, sym, rk, qs⟩ := it
    cases id <;> cases nm <;> cases sym <;> cases rk <;> cases qs <;>
      first
        | exact Option.noConfusion heq
        | (injection heq with h2; rw [← h2])

/-- Concrete instance of the amended C2: a coingecko item with symbol `btc`
is emitted upper-cased. -/
theorem transform_symbol_casing_witness :
    ∃ it ∈ [(⟨some "bitcoin", some "btc", some "Bitcoin", some 45000, some 0,
        some 0, some 0, some 1⟩ : GeckoItem)],
      (coingeckoTransformItem (fun _ => "") 0
          ⟨some "bitcoin", some "btc", some "Bitcoin", some 45000, some 0,
            some 0, some 0, some 1⟩).symbol = pyUpper (it.symbol.getD "") :=
  transform_symbol_casing.1 (fun _ => "") 0 _ _ (by simp [coingeckoTransform])

/-! ### Claim C4 -/

/-- C4 fails as stated: a run whose extraction succeeds with zero records
returns a successful result without reporting anything to `db.log_run`
(the early return skips the logging call). -/
theorem run_empty_extraction_unlogged :
    basePipelineRun "coingecko" 0 1 (Except.ok ([] : List Nat))
        (fun _ => Except.ok ([] : List Nat)) (fun _ => Except.ok ()) =
      (Except.ok ⟨"success", 0⟩, []) :=
  rfl

/-- C4 amended: the success path (non-empty extraction) logs one RunResult
carrying the processed-record count, and every failure path logs one
RunResult with zero records and the error message, still recording start
and end time, before re-raising; the empty-extraction path returns a
successful zero-record result without logging. -/
theorem base_pipeline_run_logging {ρ ν : Type} (src : String) (startT endT : Nat)
    (extractR : Except String (List ρ))
    (transformF : List ρ → Except String (List ν))
    (loadF : List ν → Except String Unit) :
    (∀ e, extractR = .error e →
        basePipelineRun src startT endT extractR transformF loadF =
          (.error e, [⟨src, "failed", 0, startT, some endT, some e⟩])) ∧
      (extractR = .ok [] →
        basePipelineRun src startT endT extractR transformF loadF =
          (.ok ⟨"success", 0⟩, [])) ∧
      (∀ raw e, extractR = .ok raw → raw ≠ [] → transformF raw = .error e →
        basePipelineRun src startT endT extractR transformF loadF =
          (.error e, [⟨src, "failed", 0, startT, some endT, some e⟩])) ∧
      (∀ raw norm e, extractR = .ok raw → raw ≠ [] → transformF raw = .ok norm →
        loadF norm = .error e →
        basePipelineRun src startT endT extractR transformF loadF =
          (.error e, [⟨src, "failed", 0, startT, some endT, some e⟩])) ∧
      (∀ raw norm, extractR = .ok raw → raw ≠ [] → transformF raw = .ok norm →
        loadF norm = .ok () →
        basePipelineRun src startT endT extractR transformF loadF =
          (.ok ⟨"success", norm.length⟩,
            [⟨src, "success", norm.length, startT, some endT, none⟩])) := by
  refine ⟨?_, ?_, ?_, ?_, ?_⟩
  · intro e he; subst he; rfl
  · intro he; subst he; rfl
  · intro raw e he hne ht; subst he
    simp [basePipelineRun, List.isEmpty_iff, hne, ht]
  · intro raw norm e he hne ht hl; subst he
    simp [basePipelineRun, List.isEmpty_iff, hne, ht, hl]
  · intro raw norm he hne ht hl; subst he
    simp [basePipelineRun, List.isEmpty_iff, hne, ht, hl]

/-- Concrete instance of the amended C4: a failing extraction is logged as
a failed RunResult with zero records and the message, then re-raised. -/
theorem base_pipeline_run_logging_witness :
    basePipelineRun "coinpaprika" 3 9 (Except.error "Network error")
        (fun (_ : List Nat) => Except.ok ([] : List Nat))
        (fun _ => Except.ok ()) =
      (Except.error "Network error",
        [⟨"coinpaprika", "failed", 0, 3, some 9, some "Network error"⟩]) :=
  (base_pipeline_run_logging "coinpaprika" 3 9 (Except.error "Network error")
    (fun _ => Except.ok []) (fun _ => Except.ok ())).1 "Network error" rfl

lemma extractLoop_error_of_no_ok {α : Type} (resp : Nat → HttpResp α)
    (maxR : Nat) (hno : ∀ i x, resp i ≠ .ok x) :
    ∀ r w, isOkE (extractLoop resp maxR r w) = false := by
  have key : ∀ fuel r w, maxR - r ≤ fuel → isOkE (extractLoop resp maxR r w) = false := by
    intro fuel
    induction fuel with
    | zero =>
      intro r w hf
      rw [extractLoop]
      rw [dif_neg (by omega)]
      rfl
    | succ n ih =>
      intro r w hf
      rw [extractLoop]
      by_cases hr : r < maxR
      · rw [dif_pos hr]
        cases hresp : resp r with
        | ok d => exact absurd hresp (hno r d)
        | rateLimited => exact ih (r + 1) (w + 1) (by omega)
        | clientError e =>
          show isOkE (if r + 1 < maxR then extractLoop resp maxR (r + 1) (w + 1)
            else Except.error e) = false
          by_cases hc : r + 1 < maxR
          · rw [if_pos hc]
            exact ih (r + 1) (w + 1) (by omega)
          · rw [if_neg hc]; rfl
      · rw [dif_neg hr]; rfl
  exact fun r w => key (maxR - r) r w le_rfl

/-! ### Claim C7 -/

/-- C7: two consecutive rate-limited responses followed by a success, with
more than two allowed retries, make `extract` return the successful body
after exactly two backoff waits and with the internal retry counter at 2,
raising nothing; and a response stream that never succeeds makes the loop
end in a raised extraction error. -/
theorem extract_retry_behaviour {α : Type} (resp : Nat → HttpResp α)
    (maxR : Nat) (d : α) (h0 : resp 0 = .rateLimited)
    (h1 : resp 1 = .rateLimited) (h2 : resp 2 = .ok d) (hm : 2 < maxR) :
    extractLoop resp maxR 0 0 = .ok ⟨d, 2, 2⟩ ∧
      ∀ (respBad : Nat → HttpResp α), (∀ i x, respBad i ≠ .ok x) →
        ∀ r w, isOkE (extractLoop respBad maxR r w) = false := by
  constructor
  · rw [extractLoop, dif_pos (by omega), h0,
      extractLoop, dif_pos (by omega), h1,
      extractLoop, dif_pos hm, h2]
  · exact fun respBad hno => extractLoop_error_of_no_ok respBad maxR hno

/-- Concrete instance of C7 at the configured `ETL_MAX_RETRIES = 3`. -/
theorem extract_retry_behaviour_witness :
    extractLoop (fun i => if i < 2 then .rateLimited else .ok 42)
        Settings.ETL_MAX_RETRIES 0 0 = .ok ⟨42, 2, 2⟩ ∧
      isOkE (extractLoop (fun _ => (.rateLimited : HttpResp Nat))
        Settings.ETL_MAX_RETRIES 0 0) = false := by
  have h := extract_retry_behaviour
    (fun i => if i < 2 then .rateLimited else .ok 42)
    Settings.ETL_MAX_RETRIES 42 rfl rfl rfl (by decide)
  exact ⟨h.1, h.2 (fun _ => .rateLimited)
    (fun i x hx => HttpResp.noConfusion hx) 0 0⟩

lemma bestMatchFold_snd_aux (ratio : String → String → ℚ) (m : String) :
    ∀ (extras : List String) (bm : Option String) (bs : ℚ),
      (extras.foldl (bmStep ratio m) (bm, bs)).2 =
        extras.foldl (fun acc a => max acc (ratio m a)) bs := by
  intro extras
  induction extras with
  | nil => intro bm bs; rfl
  | cons a as ih =>
    intro bm bs
    simp only [List.foldl_cons]
    by_cases h : ratio m a > bs
    · rw [show bmStep ratio m (bm, bs) a = (some a, ratio m a) from if_pos h,
        ih, max_eq_right h.le]
    · rw [show bmStep ratio m (bm, bs) a = (bm, bs) from if_neg h,
        ih, max_eq_left (not_lt.mp h)]

/-- The best score of the loop is the maximum similarity over the extra
keys. -/
lemma bestMatchFold_snd (ratio : String → String → ℚ) (m : String)
    (extras : List String) :
    (bestMatchFold ratio m extras).2 =
      extras.foldl (fun acc a => max acc (ratio m a)) 0 :=
  bestMatchFold_snd_aux ratio m extras none 0

lemma bestMatchFold_fst_aux (ratio : String → String → ℚ) (m : String) :
    ∀ (extras : List String) (bm : Option String) (bs : ℚ),
      (∀ b, bm = some b → ratio m b = bs) →
      ∀ b, (extras.foldl (bmStep ratio m) (bm, bs)).1 = some b →
        ratio m b = (extras.foldl (bmStep ratio m) (bm, bs)).2 := by
  intro extras
  induction extras with
  | nil =>
    intro bm bs hinv b hb
    exact hinv b hb
  | cons a as ih =>
    intro bm bs hinv b
    simp only [List.foldl_cons]
    by_cases h : ratio m a > bs
    · rw [show bmStep ratio m (bm, bs) a = (some a, ratio m a) from if_pos h]
      exact ih (some a) (ratio m a)
        (fun b' hb' => by rw [(Option.some_inj.mp hb').symm]) b
    · rw [show bmStep ratio m (bm, bs) a = (bm, bs) from if_neg h]
      exact ih bm bs hinv b

/-- A recorded best match attains the best score. -/
lemma bestMatchFold_fst (ratio : String → String → ℚ) (m : String)
    (extras : List String) :
    ∀ b, (bestMatchFold ratio m extras).1 = some b →
      ratio m b = (bestMatchFold ratio m extras).2 :=
  bestMatchFold_fst_aux ratio m extras none 0 (fun _ hb => Option.noConfusion hb)

lemma matched_le_expected (p : String → Bool) (fuzzyP : String → Bool)
    (expectedKeys : List String) :
    (expectedKeys.filter p).length +
        ((expectedKeys.filter (fun k => !(p k))).filter fuzzyP).length ≤
      expectedKeys.length := by
  have h := List.length_eq_length_filter_add (l := expectedKeys) p
  have h2 : ((expectedKeys.filter (fun k => !(p k))).filter fuzzyP).length ≤
      (expectedKeys.filter (fun k => !(p k))).length :=
    List.length_filter_le _ _
  omega

/-! ### Claim C8 -/

/-- C8: the drift confidence equals
`(exact matches + fuzzy matches) / total expected keys`, is 1.0 when the
expected schema is empty, and always lies in `[0, 1]`. -/
theorem drift_confidence_formula_bounds (ratio : String → String → ℚ)
    (threshold : ℚ) (expectedSchema : List (String × List PyType))
    (sample : List (String × PyVal)) :
    (expectedSchema = [] →
        (detect_schema_drift ratio threshold expectedSchema sample).confidence = 1) ∧
      0 ≤ (detect_schema_drift ratio threshold expectedSchema sample).confidence ∧
      (detect_schema_drift ratio threshold expectedSchema sample).confidence ≤ 1 ∧
      (expectedSchema ≠ [] →
        (detect_schema_drift ratio threshold expectedSchema sample).confidence =
          (((expectedSchema.map Prod.fst).filter
              (fun k => (sample.map Prod.fst).contains k)).length +
            (detect_schema_drift ratio threshold expectedSchema sample).fuzzyKeys.length :
            ℚ) / (expectedSchema.map Prod.fst).length) := by
  have hb : ∀ es : List (String × List PyType), es ≠ [] →
      0 < (es.map Prod.fst).length := by
    intro es hne
    rcases es with _ | ⟨e, es⟩
    · exact absurd rfl hne
    · simp
  refine ⟨?_, ?_, ?_, ?_⟩
  · intro he; subst he; rfl
  · unfold detect_schema_drift
    dsimp only
    split
    · positivity
    · norm_num
  · unfold detect_schema_drift
    dsimp only
    split
    · rename_i hpos
      rw [div_le_one (by exact_mod_cast hpos)]
      exact_mod_cast matched_le_expected _ _ _
    · norm_num
  · intro hne
    unfold detect_schema_drift
    dsimp only
    rw [if_pos (hb expectedSchema hne)]
    push_cast
    ring

/-- Concrete instances of C8: the empty expected schema gives confidence 1,
and a non-empty schema gives the quotient formula. -/
theorem drift_confidence_formula_bounds_witness :
    (detect_schema_drift (fun _ _ => 0) (4/5) [] []).confidence = 1 ∧
      (detect_schema_drift (fun _ _ => 0) (4/5) [("a", [PyType.strT])]
          [("b", PyVal.vStr "x")]).confidence =
        ((([("a", [PyType.strT])].map Prod.fst).filter
            (fun k => ([("b", PyVal.vStr "x")].map Prod.fst).contains k)).length +
          (detect_schema_drift (fun _ _ => 0) (4/5) [("a", [PyType.strT])]
            [("b", PyVal.vStr "x")]).fuzzyKeys.length : ℚ) /
          ([("a", [PyType.strT])].map Prod.fst).length := by
  refine ⟨(drift_confidence_formula_bounds (fun _ _ => 0) (4/5) [] []).1 rfl, ?_⟩
  exact (drift_confidence_formula_bounds (fun _ _ => 0) (4/5) [("a", [PyType.strT])]
    [("b", PyVal.vStr "x")]).2.2.2 (by decide)

/-! ### Claim C9 -/

/-- C9: for each missing key the detector's best-match score is the maximum
similarity ratio over the extra keys, a recorded best match attains that
score, and reaching the threshold records the rename hint and counts the
key as fuzzy-matched; in particular, expected keys `a, b, c` against
observed keys `a, b, d` with `ratio c d` at or above the configured
threshold yield the rename hint `c -> d`, one fuzzy match, and
confidence `(2 + 1) / 3`. -/
theorem drift_rename_hints (ratio : String → String → ℚ) (threshold : ℚ)
    (expectedSchema : List (String × List PyType))
    (sample : List (String × PyVal)) :
    (∀ m ∈ (detect_schema_drift ratio threshold expectedSchema sample).missingKeys,
        (bestMatchFold ratio m
            (detect_schema_drift ratio threshold expectedSchema sample).extraKeys).2 =
          ((detect_schema_drift ratio threshold expectedSchema sample).extraKeys.foldl
            (fun acc a => max acc (ratio m a)) 0) ∧
        (∀ b, (bestMatchFold ratio m
            (detect_schema_drift ratio threshold expectedSchema sample).extraKeys).1 =
              some b →
          ratio m b = (bestMatchFold ratio m
            (detect_schema_drift ratio threshold expectedSchema sample).extraKeys).2) ∧
        (threshold ≤ (bestMatchFold ratio m
            (detect_schema_drift ratio threshold expectedSchema sample).extraKeys).2 →
          DriftWarning.rename m
              (((bestMatchFold ratio m
                (detect_schema_drift ratio threshold expectedSchema sample).extraKeys).1).getD
                "None") ∈
              (detect_schema_drift ratio threshold expectedSchema sample).warnings ∧
            m ∈ (detect_schema_drift ratio threshold expectedSchema sample).fuzzyKeys)) ∧
      (Settings.SCHEMA_DRIFT_THRESHOLD ≤ ratio "c" "d" →
        DriftWarning.rename "c" "d" ∈
            (detect_schema_drift ratio Settings.SCHEMA_DRIFT_THRESHOLD
              [("a", [.strT]), ("b", [.strT]), ("c", [.strT])]
              [("a", .vStr "x"), ("b", .vStr "y"), ("d", .vStr "z")]).warnings ∧
          (detect_schema_drift ratio Settings.SCHEMA_DRIFT_THRESHOLD
              [("a", [.strT]), ("b", [.strT]), ("c", [.strT])]
              [("a", .vStr "x"), ("b", .vStr "y"), ("d", .vStr "z")]).fuzzyKeys =
            ["c"] ∧
          (detect_schema_drift ratio Settings.SCHEMA_DRIFT_THRESHOLD
              [("a", [.strT]), ("b", [.strT]), ("c", [.strT])]
              [("a", .vStr "x"), ("b", .vStr "y"), ("d", .vStr "z")]).confidence =
            (2 + 1) / 3) := by
  constructor
  · intro m hm
    refine ⟨bestMatchFold_snd ratio m _, bestMatchFold_fst ratio m _, ?_⟩
    intro hth
    have hmf : m ∈ (detect_schema_drift ratio threshold expectedSchema sample).fuzzyKeys := by
      show m ∈ driftFuzzy ratio threshold (expectedSchema.map Prod.fst)
        (sample.map Prod.fst)
      exact List.mem_filter.mpr ⟨hm, decide_eq_true hth⟩
    refine ⟨?_, hmf⟩
    show DriftWarning.rename m _ ∈
      driftRenameWarnings ratio threshold (expectedSchema.map Prod.fst)
          (sample.map Prod.fst) ++
        driftTypeWarnings expectedSchema sample
    exact List.mem_append_left _ (List.mem_map_of_mem _ hmf)
  · intro h
    have hpos : 0 < ratio "c" "d" := by
      have : (0 : ℚ) < Settings.SCHEMA_DRIFT_THRESHOLD := by
        unfold Settings.SCHEMA_DRIFT_THRESHOLD; norm_num
      linarith
    have hextra : driftExtra ["a", "b", "c"] ["a", "b", "d"] = ["d"] := by decide
    have hbm : bestMatchFold ratio "c" ["d"] = (some "d", ratio "c" "d") := by
      unfold bestMatchFold bmStep
      simp [hpos]
    have hdec : decide (Settings.SCHEMA_DRIFT_THRESHOLD ≤
        (bestMatchFold ratio "c" (driftExtra ["a", "b", "c"] ["a", "b", "d"])).2) =
        true := by
      rw [hextra, hbm]
      exact decide_eq_true h
    have hfz : driftFuzzy ratio Settings.SCHEMA_DRIFT_THRESHOLD
        ["a", "b", "c"] ["a", "b", "d"] = ["c"] := by
      unfold driftFuzzy
      rw [show driftMissing ["a", "b", "c"] ["a", "b", "d"] = ["c"] from by decide]
      rw [List.filter_cons, hdec]
      rfl
    refine ⟨?_, hfz, ?_⟩
    · show DriftWarning.rename "c" "d" ∈
        driftRenameWarnings ratio Settings.SCHEMA_DRIFT_THRESHOLD
            ["a", "b", "c"] ["a", "b", "d"] ++
          driftTypeWarnings [("a", [.strT]), ("b", [.strT]), ("c", [.strT])]
            [("a", .vStr "x"), ("b", .vStr "y"), ("d", .vStr "z")]
      apply List.mem_append_left
      unfold driftRenameWarnings
      rw [hfz, hextra]
      simp [hbm]
    · have hexact : (["a", "b", "c"] : List String).filter
          (fun k => (["a", "b", "d"] : List String).contains k) = ["a", "b"] := by
        decide
      unfold detect_schema_drift
      dsimp only
      rw [show List.map Prod.fst
            [("a", [PyType.strT]), ("b", [PyType.strT]), ("c", [PyType.strT])] =
            (["a", "b", "c"] : List String) from rfl,
        show List.map Prod.fst
            [("a", PyVal.vStr "x"), ("b", PyVal.vStr "y"), ("d", PyVal.vStr "z")] =
            (["a", "b", "d"] : List String) from rfl,
        hexact, hfz]
      norm_num

/-- Concrete instance of C9: a similarity function rating `c` against `d`
at 1 produces the rename hint `c -> d`, one fuzzy match, and confidence
`(2 + 1) / 3`. -/
theorem drift_rename_hints_witness :
    DriftWarning.rename "c" "d" ∈
        (detect_schema_drift (fun s t => if s = "c" ∧ t = "d" then 1 else 0)
          Settings.SCHEMA_DRIFT_THRESHOLD
          [("a", [.strT]), ("b", [.strT]), ("c", [.strT])]
          [("a", .vStr "x"), ("b", .vStr "y"), ("d", .vStr "z")]).warnings ∧
      (detect_schema_drift (fun s t => if s = "c" ∧ t = "d" then 1 else 0)
          Settings.SCHEMA_DRIFT_THRESHOLD
          [("a", [.strT]), ("b", [.strT]), ("c", [.strT])]
          [("a", .vStr "x"), ("b", .vStr "y"), ("d", .vStr "z")]).fuzzyKeys =
        ["c"] ∧
      (detect_schema_drift (fun s t => if s = "c" ∧ t = "d" then 1 else 0)
          Settings.SCHEMA_DRIFT_THRESHOLD
          [("a", [.strT]), ("b", [.strT]), ("c", [.strT])]
          [("a", .vStr "x"), ("b", .vStr "y"), ("d", .vStr "z")]).confidence =
        (2 + 1) / 3 :=
  (drift_rename_hints (fun s t => if s = "c" ∧ t = "d" then 1 else 0)
    Settings.SCHEMA_DRIFT_THRESHOLD [] []).2
    (by norm_num [Settings.SCHEMA_DRIFT_THRESHOLD])

/-- In every prefix of a well-checkpointed segment the checkpoints never
outnumber the batch writes: a checkpoint is never advanced before its
batch write succeeded. -/
lemma chkTrace_prefix_counts {tot : Nat} {evs : List LoadEvent}
    (h : ChkTrace tot evs) :
    ∀ p q, evs = p ++ q → ckptCount p ≤ writeCount p := by
  induction h with
  | nil tot =>
    intro p q hpq
    have hp : p = [] := by
      rcases List.append_eq_nil.mp hpq.symm with ⟨h1, _⟩
      exact h1
    subst hp
    exact le_rfl
  | block tot n m evs htail ih =>
    intro p q hpq
    rcases p with _ | ⟨a, p2⟩
    · exact le_rfl
    · rw [List.cons_append] at hpq
      injection hpq with ha htl
      subst ha
      rcases p2 with _ | ⟨b, p3⟩
      · simp [ckptCount, writeCount, List.countP_cons, isBatchWrite,
          isCheckpointSave]
      · rw [List.cons_append] at htl
        injection htl with hb htl2
        subst hb
        have := ih p3 q htl2
        simp only [ckptCount, writeCount, List.countP_cons, isBatchWrite,
          isCheckpointSave] at *
        omega

/-- Every checkpoint of a well-checkpointed segment carries exactly the
cumulative records written before it. -/
lemma chkTrace_checkpoint_cum {tot : Nat} {evs : List LoadEvent}
    (h : ChkTrace tot evs) :
    ∀ p n m q, evs = p ++ LoadEvent.checkpointSave n m :: q →
      n = tot + writtenSum p := by
  induction h with
  | nil tot =>
    intro p n m q hpq
    exact absurd hpq (by simp)
  | block tot n' m' evs htail ih =>
    intro p n m q hpq
    rcases p with _ | ⟨a, p2⟩
    · rw [List.nil_append] at hpq
      injection hpq with h1 h2
      exact LoadEvent.noConfusion h1
    · rw [List.cons_append] at hpq
      injection hpq with ha htl
      subst ha
      rcases p2 with _ | ⟨b, p3⟩
      · rw [List.nil_append] at htl
        injection htl with hcs _
        injection hcs with hn _
        simp [← hn, writtenSum]
      · rw [List.cons_append] at htl
        injection htl with hb htl2
        subst hb
        have := ih p3 n m q htl2
        simp only [writtenSum] at *
        omega

/-- Structure of the batch loop's trace with checkpointing enabled:
well-checkpointed from the running total, free of completion marks, and
covering the whole input exactly when no write failed. -/
lemma loadBatches_spec (bs : Nat) (failAt : Nat → Bool) :
    ∀ (fuel : Nat) (rem : List NormRecord), rem.length ≤ fuel →
      ∀ (offset tot : Nat),
        ChkTrace tot (loadBatches true bs failAt offset tot rem).1 ∧
        LoadEvent.markCompleted ∉ (loadBatches true bs failAt offset tot rem).1 ∧
        ((loadBatches true bs failAt offset tot rem).2 = .ok () →
          writtenSum (loadBatches true bs failAt offset tot rem).1 = rem.length) := by
  have heqnil : ∀ offset tot,
      loadBatches true bs failAt offset tot [] = ([], .ok ()) := by
    intro offset tot
    rw [loadBatches]
  have heqfail : ∀ offset tot (r : NormRecord) rs, failAt offset = true →
      loadBatches true bs failAt offset tot (r :: rs) =
        ([], .error "batch write failed") := by
    intro offset tot r rs hf
    rw [loadBatches, if_pos hf]
  have heqcons : ∀ offset tot (r : NormRecord) rs, ¬ failAt offset = true →
      loadBatches true bs failAt offset tot (r :: rs) =
        (LoadEvent.batchWrite (r :: rs.take (bs - 1)).length ::
            LoadEvent.checkpointSave (tot + (r :: rs.take (bs - 1)).length)
              (offset + bs) ::
            (loadBatches true bs failAt (offset + bs)
              (tot + (r :: rs.take (bs - 1)).length) (rs.drop (bs - 1))).1,
          (loadBatches true bs failAt (offset + bs)
            (tot + (r :: rs.take (bs - 1)).length) (rs.drop (bs - 1))).2) := by
    intro offset tot r rs hf
    rw [loadBatches, if_neg hf]
    rfl
  intro fuel
  induction fuel with
  | zero =>
    intro rem hlen offset tot
    have : rem = [] := List.eq_nil_of_length_eq_zero (Nat.le_zero.mp hlen)
    subst this
    rw [heqnil]
    exact ⟨ChkTrace.nil tot, by simp, fun _ => rfl⟩
  | succ k ih =>
    intro rem hlen offset tot
    rcases rem with _ | ⟨r, rs⟩
    · rw [heqnil]
      exact ⟨ChkTrace.nil tot, by simp, fun _ => rfl⟩
    · by_cases hf : failAt offset = true
      · rw [heqfail offset tot r rs hf]
        exact ⟨ChkTrace.nil tot, by simp, fun hok => by simp at hok⟩
      · rw [heqcons offset tot r rs hf]
        have hrest : (rs.drop (bs - 1)).length ≤ k := by
          simp only [List.length_drop]
          simp only [List.length_cons] at hlen
          omega
        obtain ⟨ih1, ih2, ih3⟩ :=
          ih (rs.drop (bs - 1)) hrest (offset + bs)
            (tot + (r :: rs.take (bs - 1)).length)
        refine ⟨?_, ?_, ?_⟩
        · exact ChkTrace.block tot _ _ _ ih1
        · intro hmem
          rcases List.mem_cons.mp hmem with h | hmem
          · exact LoadEvent.noConfusion h
          · rcases List.mem_cons.mp hmem with h | hmem
            · exact LoadEvent.noConfusion h
            · exact ih2 hmem
        · intro hok
          have := ih3 hok
          simp only [writtenSum, this]
          simp only [List.length_cons, List.length_take, List.length_drop]
          omega

/-! ### Claim C5 -/

/-- C5 fails as stated: the csv pipeline's `load`, with checkpointing
enabled in the configuration, writes a two-record input in a single
unbatched call, persists no checkpoint, and never marks a checkpoint
completed. -/
theorem csv_load_no_checkpoints :
    Settings.CHECKPOINT_ENABLED = true ∧
      csvLoadTrace false
          [⟨"csv", "BTC", "Bitcoin", 45000, 1, 1, 1, 1, 0, "p"⟩,
            ⟨"csv", "ETH", "Ethereum", 3000, 1, 1, 1, 2, 0, "q"⟩] =
        ([LoadEvent.rawSave 2, LoadEvent.batchWrite 2], .ok ()) ∧
      ckptCount [LoadEvent.rawSave 2, LoadEvent.batchWrite 2] = 0 ∧
      LoadEvent.markCompleted ∉ [LoadEvent.rawSave 2, LoadEvent.batchWrite 2] := by
  refine ⟨rfl, rfl, rfl, ?_⟩
  decide

/-- C5 amended: for the coinpaprika and coingecko pipelines with
checkpointing enabled, the load trace is the raw save followed by a
well-checkpointed batch segment: each checkpoint immediately follows its
batch write and carries the cumulative records-processed count, in no
prefix do checkpoints outnumber batch writes, a write failure propagates
the error with no completion mark and the earlier checkpoints in place,
and on success the batches cover the whole input and the trace ends by
marking the checkpoint completed.  (The csv pipeline's load is a single
unbatched write with no checkpointing.) -/
theorem api_load_checkpoint_ordering (bs : Nat) (failAt : Nat → Bool)
    (data : List NormRecord) :
    ChkTrace 0 (loadBatches true bs failAt 0 0 data).1 ∧
      (∀ p q, (loadBatches true bs failAt 0 0 data).1 = p ++ q →
        ckptCount p ≤ writeCount p) ∧
      (∀ p n m q, (loadBatches true bs failAt 0 0 data).1 =
          p ++ LoadEvent.checkpointSave n m :: q → n = writtenSum p) ∧
      ((loadBatches true bs failAt 0 0 data).2 = .ok () →
        writtenSum (loadBatches true bs failAt 0 0 data).1 = data.length ∧
        (apiLoadTrace true bs failAt data).1 =
          LoadEvent.rawSave data.length ::
            ((loadBatches true bs failAt 0 0 data).1 ++ [LoadEvent.markCompleted])) ∧
      (∀ e, (loadBatches true bs failAt 0 0 data).2 = .error e →
        (apiLoadTrace true bs failAt data).2 = .error e ∧
        (apiLoadTrace true bs failAt data).1 =
          LoadEvent.rawSave data.length :: (loadBatches true bs failAt 0 0 data).1 ∧
        LoadEvent.markCompleted ∉ (apiLoadTrace true bs failAt data).1) := by
  have hview : apiLoadTrace true bs failAt data =
      (LoadEvent.rawSave data.length ::
          ((loadBatches true bs failAt 0 0 data).1 ++
            (if true && isOkU (loadBatches true bs failAt 0 0 data).2 then
              [LoadEvent.markCompleted] else [])),
        (loadBatches true bs failAt 0 0 data).2) := rfl
  obtain ⟨h1, h2, h3⟩ := loadBatches_spec bs failAt data.length data le_rfl 0 0
  refine ⟨h1, fun p q hpq => chkTrace_prefix_counts h1 p q hpq,
    fun p n m q hpq => by simpa using chkTrace_checkpoint_cum h1 p n m q hpq,
    ?_, ?_⟩
  · intro hok
    refine ⟨h3 hok, ?_⟩
    rw [hview, hok]
    rfl
  · intro e herr
    refine ⟨?_, ?_, ?_⟩
    · rw [hview, herr]
    · rw [hview, herr]
      simp [isOkU]
    · rw [hview, herr]
      simp only [isOkU, Bool.and_false]
      rw [if_neg (by simp), List.append_nil]
      intro hmem
      rcases List.mem_cons.mp hmem with h | hmem
      · exact LoadEvent.noConfusion h
      · exact h2 hmem

/-- Concrete instance of the amended C5: three records, batch size two, a
failure of the second batch write: the error propagates, exactly the
first batch's checkpoint (count 2) is in the trace, and nothing is
marked completed. -/
theorem api_load_checkpoint_ordering_witness :
    (loadBatches true 2 (fun off => decide (off = 2)) 0 0
        [⟨"coingecko", "BTC", "Bitcoin", 1, 1, 1, 1, 1, 0, "p"⟩,
          ⟨"coingecko", "ETH", "Ethereum", 1, 1, 1, 1, 2, 0, "q"⟩,
          ⟨"coingecko", "ADA", "Cardano", 1, 1, 1, 1, 3, 0, "r"⟩]).1 =
        [LoadEvent.batchWrite 2, LoadEvent.checkpointSave 2 2] ∧
      (apiLoadTrace true 2 (fun off => decide (off = 2))
          [⟨"coingecko", "BTC", "Bitcoin", 1, 1, 1, 1, 1, 0, "p"⟩,
            ⟨"coingecko", "ETH", "Ethereum", 1, 1, 1, 1, 2, 0, "q"⟩,
            ⟨"coingecko", "ADA", "Cardano", 1, 1, 1, 1, 3, 0, "r"⟩]).2 =
        .error "batch write failed" ∧
      LoadEvent.markCompleted ∉
        (apiLoadTrace true 2 (fun off => decide (off = 2))
          [⟨"coingecko", "BTC", "Bitcoin", 1, 1, 1, 1, 1, 0, "p"⟩,
            ⟨"coingecko", "ETH", "Ethereum", 1, 1, 1, 1, 2, 0, "q"⟩,
            ⟨"coingecko", "ADA", "Cardano", 1, 1, 1, 1, 3, 0, "r"⟩]).1 := by
  refine ⟨by simp [loadBatches], by simp [loadBatches, apiLoadTrace], ?_⟩
  exact ((api_load_checkpoint_ordering 2 (fun off => decide (off = 2))
    [⟨"coingecko", "BTC", "Bitcoin", 1, 1, 1, 1, 1, 0, "p"⟩,
      ⟨"coingecko", "ETH", "Ethereum", 1, 1, 1, 1, 2, 0, "q"⟩,
      ⟨"coingecko", "ADA", "Cardano", 1, 1, 1, 1, 3, 0, "r"⟩]).2.2.2.2
    "batch write failed" (by simp [loadBatches])).2.2

lemma loadBatchesState_crypto (ckpt : Bool) (bs : Nat) (source : String) :
    ∀ (fuel : Nat) (rem : List NormRecord), rem.length ≤ fuel →
      ∀ (db : DBState) (offset tot : Nat),
        (loadBatchesState ckpt bs source db offset tot rem).crypto =
            save_normalized_data db.crypto rem ∧
          (loadBatchesState ckpt bs source db offset tot rem).raw = db.raw := by
  intro fuel
  induction fuel with
  | zero =>
    intro rem hlen db offset tot
    have : rem = [] := List.eq_nil_of_length_eq_zero (Nat.le_zero.mp hlen)
    subst this
    rw [loadBatchesState]
    exact ⟨rfl, rfl⟩
  | succ k ih =>
    intro rem hlen db offset tot
    rcases rem with _ | ⟨r, rs⟩
    · rw [loadBatchesState]
      exact ⟨rfl, rfl⟩
    · rw [loadBatchesState]
      have hrest : (rs.drop (bs - 1)).length ≤ k := by
        simp only [List.length_drop]
        simp only [List.length_cons] at hlen
        omega
      set db1 := saveNormalizedState db (r :: rs.take (bs - 1)) with hdb1
      set db2 := if ckpt then
          save_checkpoint db1 source (offset + bs)
            (tot + (r :: rs.take (bs - 1)).length)
        else db1 with hdb2
      obtain ⟨ihc, ihr⟩ := ih (rs.drop (bs - 1)) hrest db2 (offset + bs)
        (tot + (r :: rs.take (bs - 1)).length)
      have hc2 : db2.crypto = db1.crypto := by
        rw [hdb2]
        split <;> rfl
      have hr2 : db2.raw = db1.raw := by
        rw [hdb2]
        split <;> rfl
      refine ⟨?_, ?_⟩
      · rw [ihc, hc2, hdb1]
        show save_normalized_data
            (save_normalized_data db.crypto (r :: rs.take (bs - 1)))
            (rs.drop (bs - 1)) = save_normalized_data db.crypto (r :: rs)
        unfold save_normalized_data
        rw [← List.foldl_append]
        rw [show (r :: rs.take (bs - 1)) ++ rs.drop (bs - 1) = r :: rs from by
          rw [List.cons_append, List.take_append_drop]]
      · rw [ihr, hr2, hdb1]
        rfl

/-! ### Claim C10 -/

/-- C10: raw persistence is append-only and not idempotent.
`save_raw_data` inserts one row per item with no duplicate check, the
coingecko load appends exactly `n` raw rows per call, and re-running the
load with the identical records appends `n` further raw rows while the
normalized table stays exactly as after the first call. -/
theorem load_raw_append_only (ckpt : Bool) (bs : Nat) (db : DBState)
    (data : List NormRecord) :
    (∀ (payloads : List String) (ids : Option (List String)),
        ∃ db', save_raw_data db "coingecko" payloads ids = .ok db' ∧
          db'.raw.length = db.raw.length + payloads.length) ∧
      ∃ db1 db2, coingeckoLoadState ckpt bs db data = .ok db1 ∧
        coingeckoLoadState ckpt bs db1 data = .ok db2 ∧
        db1.raw.length = db.raw.length + data.length ∧
        db2.raw.length = db.raw.length + 2 * data.length ∧
        db2.crypto = db1.crypto := by
  have hraw : ∀ (d : DBState) (payloads : List String) (ids : Option (List String)),
      ∃ d', save_raw_data d "coingecko" payloads ids = .ok d' ∧
        d'.raw.length = d.raw.length + payloads.length ∧
        d'.crypto = d.crypto := by
    intro d payloads ids
    refine ⟨_, rfl, ?_, rfl⟩
    simp [save_raw_data]
  have hload : ∀ (d : DBState), ∃ d',
      coingeckoLoadState ckpt bs d data = .ok d' ∧
        d'.raw.length = d.raw.length + data.length ∧
        d'.crypto = save_normalized_data d.crypto data := by
    intro d
    obtain ⟨dr, hdr, hdlen, hdc⟩ := hraw d (data.map (fun r => r.rawData))
      (some (data.map (fun r => r.symbol)))
    obtain ⟨hbc, hbr⟩ := loadBatchesState_crypto ckpt bs "coingecko"
      data.length data le_rfl dr 0 0
    refine ⟨if ckpt then
        mark_checkpoint_completed
          (loadBatchesState ckpt bs "coingecko" dr 0 0 data) "coingecko"
      else loadBatchesState ckpt bs "coingecko" dr 0 0 data, ?_, ?_, ?_⟩
    · unfold coingeckoLoadState
      rw [hdr]
      rfl
    · have hmr : ∀ (x : DBState),
          (mark_checkpoint_completed x "coingecko").raw = x.raw :=
        fun _ => rfl
      rcases Bool.eq_false_or_eq_true ckpt with hck | hck <;>
        subst hck <;>
        simp only [if_true, if_false, Bool.false_eq_true, hmr, hbr] <;>
        rw [hdlen] <;> simp
    · have hmc : ∀ (x : DBState),
          (mark_checkpoint_completed x "coingecko").crypto = x.crypto :=
        fun _ => rfl
      rcases Bool.eq_false_or_eq_true ckpt with hck | hck <;>
        subst hck <;>
        simp only [if_true, if_false, Bool.false_eq_true, hmc, hbc] <;>
        rw [hdc]
  refine ⟨fun payloads ids => ?_, ?_⟩
  · obtain ⟨d', h1, h2, _⟩ := hraw db payloads ids
    exact ⟨d', h1, h2⟩
  · obtain ⟨db1, h1, hlen1, hc1⟩ := hload db
    obtain ⟨db2, h2, hlen2, hc2⟩ := hload db1
    refine ⟨db1, db2, h1, h2, hlen1, by omega, ?_⟩
    rw [hc2, hc1, save_normalized_data_idem]

end Kasparro
